import Mathlib

/-!
Verification of the recurrence-based generators for 1/3^n from
`examples/Algorithm_Choice.ipynb` and their error analysis.

The notebook computes in IEEE-754 binary64 ("double") arithmetic via numpy.
We embed that arithmetic exactly: every double value occurring in the
program lies far inside the normal range, so a double is a rational number
with a 53-bit significand, and every arithmetic operation is "compute the
exact rational result, then round to nearest (ties to even) at 53 bits".
`fl` below is that rounding; `fadd`/`fsub`/`fmul`/`fdiv` are the rounded
operations.  Absolute value is exact in binary64, so it needs no rounding.
-/

/-- The largest `e ≤ 255` with `b * 2 ^ e ≤ a` (for `b ≤ a`), found by
binary descent.  For the magnitudes occurring in this development
(`a / b < 2 ^ 200`) this is exactly `⌊log2 (a / b)⌋`. -/
def expGE (a b : ℕ) : ℕ :=
  List.foldl (fun e k => if b * 2 ^ (e + k) ≤ a then e + k else e) 0
    [128, 64, 32, 16, 8, 4, 2, 1]

/-- `⌊log2 (a / b)⌋` for `a, b ≥ 1` (with `|result| ≤ 256`, ample for
every value in this development). -/
def flog2 (a b : ℕ) : ℤ :=
  if b ≤ a then (expGE a b : ℤ)
  else
    let f := expGE b a
    if a * 2 ^ f = b then -(f : ℤ) else -(f : ℤ) - 1

/-- Round `num / den` (with `den ≠ 0`) to the nearest integer,
ties to even. -/
def roundScaled (num den : ℕ) : ℕ :=
  let q := num / den
  let r := num % den
  if 2 * r < den then q
  else if den < 2 * r then q + 1
  else if q % 2 = 0 then q else q + 1

/-- Round the positive rational `a / b` to 53 significant bits,
to nearest, ties to even. -/
def flPos (a b : ℕ) : ℚ :=
  let e : ℤ := flog2 a b
  if 0 ≤ e - 52 then ((roundScaled a (b * 2 ^ (e - 52).toNat) * 2 ^ (e - 52).toNat : ℕ) : ℚ)
  else mkRat (roundScaled (a * 2 ^ (52 - e).toNat) b : ℤ) (2 ^ (52 - e).toNat)

/-- Correctly-rounded conversion of an exact rational to a binary64 value
(round to nearest, ties to even, 53-bit significand, unbounded exponent:
all values in this development are far from overflow and underflow). -/
def fl (x : ℚ) : ℚ :=
  if x = 0 then 0
  else if x < 0 then -flPos x.num.natAbs x.den else flPos x.num.natAbs x.den

/-- binary64 addition. -/
def fadd (x y : ℚ) : ℚ := fl (x + y)

/-- binary64 subtraction. -/
def fsub (x y : ℚ) : ℚ := fl (x - y)

/-- binary64 multiplication. -/
def fmul (x y : ℚ) : ℚ := fl (x * y)

/-- binary64 division. -/
def fdiv (x y : ℚ) : ℚ := fl (x / y)

/-!
## The generators

`prec` and `qrec` in the notebook both follow the shape

    p = np.zeros(n+1)
    p[0] = 1
    p[1] = 1./3
    for j in range(2,n+1) :
        p[j] = c1*p[j-1] - c2*p[j-2]
    return p

with `(c1, c2) = (5./6, 1./6)` for `prec` and `(5./3, 4./9)` for `qrec`.
We embed this faithfully over `Option`: `np.zeros(n+1)` fails when
`n + 1 < 0` (numpy `ValueError` for a negative dimension), and every
indexed write `p[i] = v` fails when `i` is out of bounds (numpy
`IndexError`).  `n` is taken as an arbitrary integer, as in Python.
-/

/-- `np.zeros(len)`: a list of `len` float zeros. -/
def zerosQ (len : ℕ) : List ℚ := List.replicate len 0

/-- The indexed write `l[i] = v`: fails (numpy `IndexError`) when `i` is
out of bounds.  (The indices written by the notebook code are the literals
0 and 1 and the loop variable `j ≥ 2`, all non-negative, so numpy's
negative-index wrapping never comes into play.) -/
def setAt (l : List ℚ) (i : ℕ) (v : ℚ) : Option (List ℚ) :=
  if i < l.length then some (l.set i v) else none

/-- One loop body `p[j] = c1*p[j-1] - c2*p[j-2]`, with bounds-checked
reads and write. -/
def stepBody (c1 c2 : ℚ) (l : List ℚ) (j : ℕ) : Option (List ℚ) :=
  match l[j - 1]?, l[j - 2]? with
  | some a, some b => setAt l j (fsub (fmul c1 a) (fmul c2 b))
  | _, _ => none

/-- `for j in range(j0, j0+k): p[j] = c1*p[j-1] - c2*p[j-2]`. -/
def runLoop (c1 c2 : ℚ) : ℕ → ℕ → List ℚ → Option (List ℚ)
  | 0, _, l => some l
  | k + 1, j, l =>
    match stepBody c1 c2 l j with
    | some l' => runLoop c1 c2 k (j + 1) l'
    | none => none

/-- The common body of `prec` and `qrec`: allocate `n+1` zeros, seed
indices 0 and 1 with the doubles `1` and `1./3`, then run the recurrence
loop over `range(2, n+1)` (which has `max 0 (n-1)` iterations). -/
def genRec (c1 c2 : ℚ) (n : ℤ) : Option (List ℚ) :=
  if n + 1 < 0 then none
  else
    (setAt (zerosQ (n + 1).toNat) 0 1).bind fun z0 =>
      (setAt z0 1 (fl (1 / 3))).bind fun z1 =>
        runLoop c1 c2 ((n + 1).toNat - 2) 2 z1

/-- `prec(n)` from the notebook: "Mostly stable recursion relation for
1/3^n", seeds 1 and 1./3, recurrence `p[j] = 5./6*p[j-1] - 1./6*p[j-2]`. -/
def prec (n : ℤ) : Option (List ℚ) := genRec (fl (5 / 6)) (fl (1 / 6)) n

/-- `qrec(n)` from the notebook: "Mostly unstable recursion relation for
1/3^n", seeds 1 and 1./3, recurrence `q[j] = 5./3*q[j-1] - 4./9*q[j-2]`. -/
def qrec (n : ℤ) : Option (List ℚ) := genRec (fl (5 / 3)) (fl (4 / 9)) n

/-- The mathematical values produced by the float recurrence with seeds
`s0`, `s1` and coefficients `c1`, `c2` (the closed-form companion of the
array loop above). -/
def recVal (s0 s1 c1 c2 : ℚ) : ℕ → ℚ
  | 0 => s0
  | 1 => s1
  | j + 2 => fsub (fmul c1 (recVal s0 s1 c1 c2 (j + 1))) (fmul c2 (recVal s0 s1 c1 c2 j))

/-!
## The error analyzer

    n = np.arange(N+1)
    expected = 1/3.**n
    err = np.abs(1 - S/expected)

`3.**j` is float exponentiation of the double `3.0`; we model it as the
correctly rounded power `fl (3^j)` (confirmed bit-for-bit against the
reference values printed in the notebook for every `j ≤ 40`).
-/

/-- `3.**j`: floating-point exponentiation, modelled as correctly
rounded; notably NOT computed through either recurrence and NOT by
fixed-width integer arithmetic. -/
def fpow3 (j : ℕ) : ℚ := fl (3 ^ j)

/-- `expected = 1/3.**n` for `n = np.arange(N+1)`: the closed-form
reference sequence. -/
def expectedSeq (N : ℕ) : List ℚ := (List.range (N + 1)).map fun j => fdiv 1 (fpow3 j)

/-- `np.abs(1 - S/expected)`: the elementwise fractional error of a
sequence `S` against the closed-form reference (binary64 absolute value
is exact, so it carries no rounding step). -/
def errSeq (S : List ℚ) (N : ℕ) : List ℚ :=
  (List.range (N + 1)).map fun j => |fsub 1 (fdiv (S.getD j 0) (fdiv 1 (fpow3 j)))|

/-!
## Fixed-width (int64) exponentiation

`n = np.arange(N+1)` is an int64 array, so `3**n[-1]` is computed in
int64 arithmetic, which wraps around modulo 2^64.
-/

/-- Reinterpret an integer modulo 2^64 as a signed 64-bit value. -/
def wrap64 (z : ℤ) : ℤ :=
  let r := z % 2 ^ 64
  if r < 2 ^ 63 then r else r - 2 ^ 64

/-- int64 multiplication: exact product, wrapped. -/
def mul64 (a b : ℤ) : ℤ := wrap64 (a * b)

/-- `3**n` in int64 arithmetic: iterated wrapped multiplication.  (Any
association of the wrapped products gives the same result, since
reduction modulo 2^64 commutes with multiplication.) -/
def pow3w : ℕ → ℤ
  | 0 => 1
  | n + 1 => mul64 3 (pow3w n)

/-!
## Exact-arithmetic companions (for the equivalence claim)

The spec asserts the two recurrences are *mathematically* equivalent:
over exact rational arithmetic both produce 3^(-j).  These definitions
follow the spec's wording (same seeds and coefficients, no rounding).
-/

/-- The recurrence evaluated in exact rational arithmetic, seeds `1` and
`1/3`, coefficients `c1`, `c2` (the spec's idealized reading). -/
def recValExact (c1 c2 : ℚ) : ℕ → ℚ
  | 0 => 1
  | 1 => 1 / 3
  | j + 2 => c1 * recValExact c1 c2 (j + 1) - c2 * recValExact c1 c2 j

/-- The P recurrence over exact rationals. -/
def precExact : ℕ → ℚ := recValExact (5 / 6) (1 / 6)

/-- The Q recurrence over exact rationals. -/
def qrecExact : ℕ → ℚ := recValExact (5 / 3) (4 / 9)

/-!
## Structure of the generators' output

`runLoop_spec` is the loop invariant: if every entry below the loop
counter already agrees with the closed-form recurrence values `v`, the
loop completes and extends that agreement through its whole range.
-/

lemma runLoop_spec (c1 c2 : ℚ) (v : ℕ → ℚ)
    (hv : ∀ i, v (i + 2) = fsub (fmul c1 (v (i + 1))) (fmul c2 (v i))) :
    ∀ (k j : ℕ) (l : List ℚ), 2 ≤ j → j + k ≤ l.length →
      (∀ i, i < j → l[i]? = some (v i)) →
      ∃ l', runLoop c1 c2 k j l = some l' ∧ l'.length = l.length ∧
        ∀ i, i < j + k → l'[i]? = some (v i) := by
  intro k
  induction k with
  | zero =>
    intro j l _ _ hinv
    exact ⟨l, rfl, rfl, fun i hi => hinv i (by omega)⟩
  | succ k ih =>
    intro j l hj hlen hinv
    obtain ⟨m, rfl⟩ : ∃ m, j = m + 2 := ⟨j - 2, by omega⟩
    have hjlen : m + 2 < l.length := by omega
    have h1 : l[m + 1]? = some (v (m + 1)) := hinv _ (by omega)
    have h2 : l[m]? = some (v m) := hinv _ (by omega)
    have hstep : stepBody c1 c2 l (m + 2) = some (l.set (m + 2) (v (m + 2))) := by
      unfold stepBody
      rw [show m + 2 - 1 = m + 1 by omega, show m + 2 - 2 = m by omega]
      rw [h1, h2]
      simp [setAt, hjlen, hv m]
    have hnext : ∀ i, i < m + 3 → (l.set (m + 2) (v (m + 2)))[i]? = some (v i) := by
      intro i hi
      rcases Nat.lt_or_ge i (m + 2) with hlt | hge
      · rw [List.getElem?_set_ne (by omega)]
        exact hinv i hlt
      · have : i = m + 2 := by omega
        subst this
        rw [List.getElem?_set_self hjlen]
    obtain ⟨l', hrun, hlen', hout⟩ :=
      ih (m + 3) (l.set (m + 2) (v (m + 2))) (by omega)
        (by rw [List.length_set]; omega) hnext
    refine ⟨l', ?_, by simpa using hlen', fun i hi => hout i (by omega)⟩
    simpa [runLoop, hstep] using hrun

lemma recVal_succ (s0 s1 c1 c2 : ℚ) (i : ℕ) :
    recVal s0 s1 c1 c2 (i + 2) =
      fsub (fmul c1 (recVal s0 s1 c1 c2 (i + 1))) (fmul c2 (recVal s0 s1 c1 c2 i)) := by
  simp [recVal]

/-- For `N ≥ 1`, the generator body succeeds and returns the list of the
first `N + 1` closed-form recurrence values. -/
lemma genRec_eq (c1 c2 : ℚ) (N : ℕ) (hN : 1 ≤ N) :
    ∃ l, genRec c1 c2 (N : ℤ) = some l ∧ l.length = N + 1 ∧
      ∀ i, i ≤ N → l[i]? = some (recVal 1 (fl (1 / 3)) c1 c2 i) := by
  have hneg : ¬((N : ℤ) + 1 < 0) := by omega
  have htn : ((N : ℤ) + 1).toNat = N + 1 := by omega
  have hlen0 : ((List.replicate (N + 1) (0 : ℚ)).set 0 1).length = N + 1 := by simp
  have hz0 : setAt (zerosQ (N + 1)) 0 1 =
      some ((List.replicate (N + 1) (0 : ℚ)).set 0 1) := by
    simp [setAt, zerosQ]
  have hz1 : setAt ((List.replicate (N + 1) (0 : ℚ)).set 0 1) 1 (fl (1 / 3)) =
      some (((List.replicate (N + 1) (0 : ℚ)).set 0 1).set 1 (fl (1 / 3))) := by
    simp [setAt]
    omega
  have hseed : ∀ i, i < 2 →
      ((((List.replicate (N + 1) (0 : ℚ)).set 0 1).set 1 (fl (1 / 3))))[i]? =
        some (recVal 1 (fl (1 / 3)) c1 c2 i) := by
    intro i hi
    interval_cases i
    · rw [List.getElem?_set_ne (by omega), List.getElem?_set_self (by simp)]
      simp [recVal]
    · rw [List.getElem?_set_self (by omega)]
      simp [recVal]
  obtain ⟨l', hrun, hlen, hout⟩ :=
    runLoop_spec c1 c2 (recVal 1 (fl (1 / 3)) c1 c2)
      (fun i => recVal_succ 1 (fl (1 / 3)) c1 c2 i)
      (N + 1 - 2) 2 (((List.replicate (N + 1) (0 : ℚ)).set 0 1).set 1 (fl (1 / 3)))
      (le_refl 2) (by simp; omega) hseed
  refine ⟨l', ?_, ?_, ?_⟩
  · unfold genRec
    rw [if_neg hneg, htn]
    simp only [hz0, hz1, Option.some_bind]
    exact hrun
  · rw [hlen]
    simp
  · intro i hi
    exact hout i (by omega)

/-- For negative `n` the generator body fails: for `n ≤ -2` the
allocation `np.zeros(n+1)` itself fails (negative dimension), and for
`n = -1` the array is empty, so the seed write `p[0] = 1` is out of
bounds. -/
lemma genRec_neg (c1 c2 : ℚ) (n : ℤ) (h : n < 0) : genRec c1 c2 n = none := by
  by_cases hc : n + 1 < 0
  · simp [genRec, hc]
  · have h1 : n = -1 := by omega
    subst h1
    rfl

/-- For `n = 0` the array has length 1, so the seed write `p[1] = 1./3`
is out of bounds and the generator body fails. -/
lemma genRec_zero (c1 c2 : ℚ) : genRec c1 c2 0 = none := rfl

/-- The generator body succeeds exactly for `n ≥ 1`. -/
lemma genRec_isSome (c1 c2 : ℚ) (n : ℤ) : (genRec c1 c2 n).isSome ↔ 1 ≤ n := by
  constructor
  · intro h
    by_contra hn
    have : n < 0 ∨ n = 0 := by omega
    rcases this with h0 | h0
    · rw [genRec_neg c1 c2 n h0] at h
      simp at h
    · subst h0
      rw [genRec_zero] at h
      simp at h
  · intro h
    obtain ⟨l, hl, _, _⟩ := genRec_eq c1 c2 n.toNat (by omega)
    have hcast : ((n.toNat : ℕ) : ℤ) = n := by omega
    rw [hcast] at hl
    simp [hl]

lemma recValExact_succ (c1 c2 : ℚ) (i : ℕ) :
    recValExact c1 c2 (i + 2) =
      c1 * recValExact c1 c2 (i + 1) - c2 * recValExact c1 c2 i := by
  simp [recValExact]

lemma precExact_pow :
    ∀ j, precExact j = (1 / 3 : ℚ) ^ j ∧ precExact (j + 1) = (1 / 3 : ℚ) ^ (j + 1)
  | 0 => by
    constructor
    · simp [precExact, recValExact]
    · simp [precExact, recValExact]
  | j + 1 => by
    obtain ⟨h1, h2⟩ := precExact_pow j
    refine ⟨h2, ?_⟩
    show recValExact (5 / 6) (1 / 6) (j + 2) = _
    rw [recValExact_succ]
    rw [show recValExact (5 / 6) (1 / 6) (j + 1) = precExact (j + 1) from rfl,
      show recValExact (5 / 6) (1 / 6) j = precExact j from rfl, h1, h2]
    ring

lemma qrecExact_pow :
    ∀ j, qrecExact j = (1 / 3 : ℚ) ^ j ∧ qrecExact (j + 1) = (1 / 3 : ℚ) ^ (j + 1)
  | 0 => by
    constructor
    · simp [qrecExact, recValExact]
    · simp [qrecExact, recValExact]
  | j + 1 => by
    obtain ⟨h1, h2⟩ := qrecExact_pow j
    refine ⟨h2, ?_⟩
    show recValExact (5 / 3) (4 / 9) (j + 2) = _
    rw [recValExact_succ]
    rw [show recValExact (5 / 3) (4 / 9) (j + 1) = qrecExact (j + 1) from rfl,
      show recValExact (5 / 3) (4 / 9) j = qrecExact j from rfl, h1, h2]
    ring

lemma zpow_neg_third (j : ℕ) : (3 : ℚ) ^ (-(j : ℤ)) = (1 / 3 : ℚ) ^ j := by
  rw [zpow_neg, zpow_natCast, one_div, inv_pow]

/-!
## The claims
-/

/-- C1: for every `N ≥ 1`, `prec(N)` returns a sequence of length `N+1`
with `seq[0] = 1`, `seq[1] = 1/3`, and `seq[j] = (5/6)*seq[j-1] -
(1/6)*seq[j-2]` for `2 ≤ j ≤ N` — the equalities read in the program's
binary64 arithmetic: the literal `1./3` is the rounded `fl (1/3)`, the
coefficients are the rounded `fl (5/6)` and `fl (1/6)`, and each
multiplication and subtraction rounds its exact result. -/
theorem prec_contract (N : ℕ) (hN : 1 ≤ N) :
    ∃ l, prec (N : ℤ) = some l ∧ l.length = N + 1 ∧
      l[0]? = some 1 ∧ l[1]? = some (fl (1 / 3)) ∧
      ∀ j, 2 ≤ j → j ≤ N → ∃ a b, l[j - 1]? = some a ∧ l[j - 2]? = some b ∧
        l[j]? = some (fsub (fmul (fl (5 / 6)) a) (fmul (fl (1 / 6)) b)) := by
  obtain ⟨l, hl, hlen, hv⟩ := genRec_eq (fl (5 / 6)) (fl (1 / 6)) N hN
  refine ⟨l, hl, hlen, ?_, ?_, ?_⟩
  · simpa [recVal] using hv 0 (by omega)
  · simpa [recVal] using hv 1 (by omega)
  · intro j h2 hjN
    obtain ⟨m, rfl⟩ : ∃ m, j = m + 2 := ⟨j - 2, by omega⟩
    refine ⟨recVal 1 (fl (1 / 3)) (fl (5 / 6)) (fl (1 / 6)) (m + 1),
      recVal 1 (fl (1 / 3)) (fl (5 / 6)) (fl (1 / 6)) m, ?_, ?_, ?_⟩
    · rw [show m + 2 - 1 = m + 1 by omega]
      exact hv (m + 1) (by omega)
    · rw [show m + 2 - 2 = m by omega]
      exact hv m (by omega)
    · rw [← recVal_succ]
      exact hv (m + 2) (by omega)

/-- Witness for C1 at `N = 3`. -/
theorem prec_contract_witness :
    1 ≤ 3 ∧ ∃ l, prec ((3 : ℕ) : ℤ) = some l ∧ l.length = 3 + 1 ∧
      l[0]? = some 1 ∧ l[1]? = some (fl (1 / 3)) ∧
      ∀ j, 2 ≤ j → j ≤ 3 → ∃ a b, l[j - 1]? = some a ∧ l[j - 2]? = some b ∧
        l[j]? = some (fsub (fmul (fl (5 / 6)) a) (fmul (fl (1 / 6)) b)) :=
  ⟨by norm_num, prec_contract 3 (by norm_num)⟩

/-- C2: same contract for `qrec(N)`, with the Q coefficients `5./3` and
`4./9`, again read in the program's binary64 arithmetic. -/
theorem qrec_contract (N : ℕ) (hN : 1 ≤ N) :
    ∃ l, qrec (N : ℤ) = some l ∧ l.length = N + 1 ∧
      l[0]? = some 1 ∧ l[1]? = some (fl (1 / 3)) ∧
      ∀ j, 2 ≤ j → j ≤ N → ∃ a b, l[j - 1]? = some a ∧ l[j - 2]? = some b ∧
        l[j]? = some (fsub (fmul (fl (5 / 3)) a) (fmul (fl (4 / 9)) b)) := by
  obtain ⟨l, hl, hlen, hv⟩ := genRec_eq (fl (5 / 3)) (fl (4 / 9)) N hN
  refine ⟨l, hl, hlen, ?_, ?_, ?_⟩
  · simpa [recVal] using hv 0 (by omega)
  · simpa [recVal] using hv 1 (by omega)
  · intro j h2 hjN
    obtain ⟨m, rfl⟩ : ∃ m, j = m + 2 := ⟨j - 2, by omega⟩
    refine ⟨recVal 1 (fl (1 / 3)) (fl (5 / 3)) (fl (4 / 9)) (m + 1),
      recVal 1 (fl (1 / 3)) (fl (5 / 3)) (fl (4 / 9)) m, ?_, ?_, ?_⟩
    · rw [show m + 2 - 1 = m + 1 by omega]
      exact hv (m + 1) (by omega)
    · rw [show m + 2 - 2 = m by omega]
      exact hv m (by omega)
    · rw [← recVal_succ]
      exact hv (m + 2) (by omega)

/-- Witness for C2 at `N = 3`. -/
theorem qrec_contract_witness :
    1 ≤ 3 ∧ ∃ l, qrec ((3 : ℕ) : ℤ) = some l ∧ l.length = 3 + 1 ∧
      l[0]? = some 1 ∧ l[1]? = some (fl (1 / 3)) ∧
      ∀ j, 2 ≤ j → j ≤ 3 → ∃ a b, l[j - 1]? = some a ∧ l[j - 2]? = some b ∧
        l[j]? = some (fsub (fmul (fl (5 / 3)) a) (fmul (fl (4 / 9)) b)) :=
  ⟨by norm_num, qrec_contract 3 (by norm_num)⟩

/-- C3: over exact rational arithmetic, with seeds `1` and `1/3`, both
the P recurrence and the Q recurrence yield exactly `3^(-j)` for every
index `j`, hence they produce equal sequences for every `N`. -/
theorem exact_recurrences_equivalent :
    (∀ j : ℕ, precExact j = (3 : ℚ) ^ (-(j : ℤ)) ∧
      qrecExact j = (3 : ℚ) ^ (-(j : ℤ)) ∧ precExact j = qrecExact j) ∧
    ∀ N : ℕ, (List.range (N + 1)).map precExact = (List.range (N + 1)).map qrecExact := by
  have hp : ∀ j, precExact j = (1 / 3 : ℚ) ^ j := fun j => (precExact_pow j).1
  have hq : ∀ j, qrecExact j = (1 / 3 : ℚ) ^ j := fun j => (qrecExact_pow j).1
  constructor
  · intro j
    rw [zpow_neg_third, hp, hq]
    exact ⟨rfl, rfl, rfl⟩
  · intro N
    apply List.map_congr_left
    intro a _
    rw [hp, hq]

/-- C4 (code bug): the spec says `N = 0` returns the single-element
sequence `[1]` (as does the docstring, "all values of 1/3^n from 0 up to
and including n"), but in the code the unconditional seed write
`p[1] = 1./3` is out of bounds for the length-1 array `np.zeros(1)`, so
both `prec(0)` and `qrec(0)` raise `IndexError` instead of returning:
the embedding yields `none`. -/
theorem zero_input_crashes : prec 0 = none ∧ qrec 0 = none :=
  ⟨genRec_zero (fl (5 / 6)) (fl (1 / 6)), genRec_zero (fl (5 / 3)) (fl (4 / 9))⟩

/-- C5: for every negative `N`, both generators fail without producing
any sequence (for `N ≤ -2` the negative-size allocation fails, for
`N = -1` the first seed write is out of bounds of the empty array). -/
theorem negative_rejected (n : ℤ) (h : n < 0) : prec n = none ∧ qrec n = none :=
  ⟨genRec_neg (fl (5 / 6)) (fl (1 / 6)) n h, genRec_neg (fl (5 / 3)) (fl (4 / 9)) n h⟩

/-- Witness for C5 at `N = -1`. -/
theorem negative_rejected_witness :
    (-1 : ℤ) < 0 ∧ prec (-1) = none ∧ qrec (-1) = none :=
  ⟨by norm_num, (negative_rejected (-1) (by norm_num)).1,
    (negative_rejected (-1) (by norm_num)).2⟩

/-- C6: for a sequence `S` of length `N+1` the error analyzer returns a
sequence of length `N+1` whose `j`-th element is `|1 - S[j] / (1/3^j)|`
(in the program's binary64 arithmetic), where the reference `1/3^j` is
the float division of 1 by the floating-point exponentiation `3.**j` —
not a value obtained through either recurrence. -/
theorem err_contract (S : List ℚ) (N : ℕ) (h : S.length = N + 1) :
    (errSeq S N).length = N + 1 ∧
    ∀ j, j ≤ N → ∃ x, S[j]? = some x ∧
      (errSeq S N)[j]? = some |fsub 1 (fdiv x (fdiv 1 (fl (3 ^ j))))| := by
  constructor
  · simp [errSeq]
  · intro j hj
    have hjlt : j < S.length := by omega
    refine ⟨S[j], List.getElem?_eq_getElem hjlt, ?_⟩
    unfold errSeq
    rw [List.getElem?_map, List.getElem?_range (by omega)]
    simp only [Option.map_some']
    rw [List.getD_eq_getElem?_getD, List.getElem?_eq_getElem hjlt]
    simp [fpow3]

/-- Witness for C6 with `S = [1, fl (1/3)]`, `N = 1`. -/
theorem err_contract_witness :
    ([1, fl (1 / 3)] : List ℚ).length = 1 + 1 ∧
    ((errSeq [1, fl (1 / 3)] 1).length = 1 + 1 ∧
      ∀ j, j ≤ 1 → ∃ x, ([1, fl (1 / 3)] : List ℚ)[j]? = some x ∧
        (errSeq [1, fl (1 / 3)] 1)[j]? = some |fsub 1 (fdiv x (fdiv 1 (fl (3 ^ j))))|) :=
  ⟨rfl, err_contract [1, fl (1 / 3)] 1 rfl⟩

/-- C7: for every `N ≥ 1`, `prec(N)` and `qrec(N)` succeed and have
identical elements at indices 0 and 1: exactly the double `1` and the
double literal `1./3 = fl (1/3)` (the same bit pattern in both). -/
theorem seeds_shared (N : ℕ) (hN : 1 ≤ N) :
    ∃ p q, prec (N : ℤ) = some p ∧ qrec (N : ℤ) = some q ∧
      p[0]? = some 1 ∧ p[1]? = some (fl (1 / 3)) ∧
      q[0]? = p[0]? ∧ q[1]? = p[1]? := by
  obtain ⟨p, hp, _, hvp⟩ := genRec_eq (fl (5 / 6)) (fl (1 / 6)) N hN
  obtain ⟨q, hq, _, hvq⟩ := genRec_eq (fl (5 / 3)) (fl (4 / 9)) N hN
  refine ⟨p, q, hp, hq, ?_, ?_, ?_, ?_⟩
  · simpa [recVal] using hvp 0 (by omega)
  · simpa [recVal] using hvp 1 (by omega)
  · rw [hvq 0 (by omega), hvp 0 (by omega)]
    simp [recVal]
  · rw [hvq 1 (by omega), hvp 1 (by omega)]
    simp [recVal]

/-- Witness for C7 at `N = 1`. -/
theorem seeds_shared_witness :
    1 ≤ 1 ∧ ∃ p q, prec ((1 : ℕ) : ℤ) = some p ∧ qrec ((1 : ℕ) : ℤ) = some q ∧
      p[0]? = some 1 ∧ p[1]? = some (fl (1 / 3)) ∧
      q[0]? = p[0]? ∧ q[1]? = p[1]? :=
  ⟨le_refl 1, seeds_shared 1 (le_refl 1)⟩

/-- C8: computing the reference `3^N` in wraparound int64 arithmetic
flips the sign at `N = 40`: the wrapped value is the negative number
−6289078614652622815, so the derived float reference `1/3^40` is
negative, and the error computed against that corrupted reference at
index 40 exceeds 1 (it is nonsensical: the true fractional error of
`prec` there is about 8.2e-9). -/
theorem int64_wraparound :
    pow3w 40 = -6289078614652622815 ∧ pow3w 40 < 0 ∧
    fdiv 1 (fl ((pow3w 40 : ℤ) : ℚ)) < 0 ∧
    1 < |fsub 1 (fdiv (((prec 40).getD []).getD 40 0)
      (fdiv 1 (fl ((pow3w 40 : ℤ) : ℚ))))| := by
  refine ⟨by decide!, by decide!, by decide!, by decide!⟩

/-- C9: at `N = 40` the Q generator's fractional error at index 40
exceeds 1 (all correct digits lost), while the P generator's fractional
error at index 40 stays below 1e-7 (it is about 8.2e-9). -/
theorem q_unstable_p_stable_at_40 :
    1 < (errSeq ((qrec 40).getD []) 40).getD 40 0 ∧
    (errSeq ((prec 40).getD []) 40).getD 40 0 < mkRat 1 (10 ^ 7) := by
  refine ⟨by decide!, by decide!⟩

/-- C10: in both generators every array write is in bounds exactly when
`n ≥ 1`: the out-of-bounds branch of the `Option` embedding is avoided —
the result is `some` — if and only if `1 ≤ n`. -/
theorem writes_inbounds_iff (n : ℤ) :
    ((prec n).isSome ↔ 1 ≤ n) ∧ ((qrec n).isSome ↔ 1 ≤ n) :=
  ⟨genRec_isSome (fl (5 / 6)) (fl (1 / 6)) n, genRec_isSome (fl (5 / 3)) (fl (4 / 9)) n⟩

example : fl (1 / 3) = mkRat 6004799503160661 (2 ^ 54) := by decide!
example : fl (5 / 6) = mkRat 7505999378950827 (2 ^ 53) := by decide!
example : fl (-(5 / 6)) = -mkRat 7505999378950827 (2 ^ 53) := by decide!
example : fl (2 ^ 60 + 1) = ((2 ^ 60 : ℕ) : ℚ) := by decide!
example : pow3w 40 = -6289078614652622815 := by decide!
example : (prec 4).getD [] = [1, mkRat 6004799503160661 (2 ^ 54),
    mkRat 4003199668773775 (2 ^ 55), mkRat 1334399889591259 (2 ^ 55),
    mkRat 1779199852788347 (2 ^ 57)] := by decide!
example : (errSeq ((prec 40).getD []) 40).getD 40 0 < mkRat 1 10 ^ 7 := by decide!
example : 1 < (errSeq ((qrec 40).getD []) 40).getD 40 0 := by decide!
